import Mathlib

/-!
Shallow embedding of the vizia runtime core (`src/application.rs`) and the
parts of its data model referenced there.  Pure data (entities, models,
events) is embedded as Lean inductive types / structures; the per-tick
orchestrator (the `MainEventsCleared` arm of `Application::run`) is embedded
as a state-passing function over an explicit `Context`, instrumented with a
trace of `Action`s so that ordering properties of the tick can be stated.
Collaborator code invoked by the orchestrator but not part of the core
(the builder closure, view bodies, event dispatch, the morphorm layout
solver) is passed in as function parameters.
-/

namespace Vizia

/-- Modelled from the spec: the `Entity` type is not under src/.  Per §3 an
entity is an opaque small-integer handle; a reserved value (id 0) denotes
root and a reserved sentinel denotes "null"/"no entity". -/
inductive Entity where
  | null : Entity
  | ent (id : Nat) : Entity
deriving DecidableEq

/-- The root entity, always id 0 (`Entity::root()`). -/
def Entity.root : Entity := Entity.ent 0

/-- Opaque identity of a boxed view object held in the view registry
(`views: HashMap<Entity, Box<dyn View>>`).  The behaviour of a view's
`body` method is supplied separately, as a function parameter of the
orchestrator, keyed by this identity. -/
abbrev ViewId := Nat

/-- Modelled from the spec: the `Model` trait implementation is not under
src/.  Per §3 a model exposes a dirty check (`is_dirty`), an update that
returns the set of observer entities, and a reset that clears the dirty
flag after observers have been processed. -/
structure Model where
  dirty : Bool
  observers : List Entity
deriving DecidableEq

/-- `Model::is_dirty` (§3: the dirty check). -/
def Model.is_dirty (m : Model) : Bool := m.dirty

/-- `Model::update` (§3: returns the observer set to be notified).  Called
through a shared reference in `Application::run`, so it cannot mutate. -/
def Model.update (m : Model) : List Entity := m.observers

/-- `Model::reset` (§3: clears the dirty flag after observers have been
processed). -/
def Model.reset (m : Model) : Model := { m with dirty := false }

/-- Mouse buttons, from `MouseButton` as matched in `Application::run`. -/
inductive MouseButton where
  | Left | Right | Middle
  | Other (val : Nat)
deriving DecidableEq

/-- `MouseButtonState`; `Application::run` also reuses it for keyboard
element state (Pressed/Released). -/
inductive MouseButtonState where
  | Pressed | Released
deriving DecidableEq

/-- Key codes (`vizia_input::Code`); the platform translation tables
(`vcode_to_code`, `scan_to_code`) are out of scope, so codes are opaque. -/
abbrev Code := Nat

/-- Key symbols (`vizia_input::Key`), likewise opaque. -/
abbrev Key := Nat

/-- The `WindowEvent` payload enum
(crates/vizia_core/src/window/window_event.rs), restricted to the variants
the embedded code constructs; the remaining variants (window-control
payloads, etc.) are opaque to the claims and omitted. -/
inductive WindowEvent where
  | MouseDown (button : MouseButton)
  | MouseUp (button : MouseButton)
  | KeyDown (code : Code) (key : Option Key)
  | KeyUp (code : Code) (key : Option Key)
  | CharInput (c : Char)
deriving DecidableEq

/-- Propagation policies (§4.3). -/
inductive Propagation where
  | Direct | Up | Down | DownUp
deriving DecidableEq

/-- A message envelope (§3): payload + target entity + propagation policy. -/
structure Event where
  payload : WindowEvent
  target : Entity
  propagation : Propagation
deriving DecidableEq

/-- Modelled from the spec: `Event::new` is not under src/.  The default
target/propagation are never observed, because every construction in
`Application::run` immediately sets both via `.target(..)` and
`.propagate(..)`. -/
def Event.new (payload : WindowEvent) : Event :=
  { payload := payload, target := Entity.null, propagation := Propagation.Direct }

/-- The `.target(entity)` builder method on `Event`. -/
def Event.setTarget (e : Event) (t : Entity) : Event := { e with target := t }

/-- The `.propagate(p)` builder method on `Event`. -/
def Event.propagate (e : Event) (p : Propagation) : Event := { e with propagation := p }

/-- The `Enviroment` (sic) struct: process-wide runtime state (§3) with a
locale identifier and the needs-rebuild flag. -/
structure Enviroment where
  locale : String
  needs_rebuild : Bool
deriving DecidableEq

/-- Modelled from the spec: `Enviroment::new` is not under src/; per §3 the
Environment is reset to a clean state only at creation.  The initial build
happens through the direct builder call in `Application::run`, not through
the flag. -/
def Enviroment.new : Enviroment := { locale := "", needs_rebuild := false }

/-- The Data/Model Store (`Data` with its `model_data` map): per-entity
ownership of an ordered sequence of models (§3). -/
structure Data where
  model_data : Entity → Option (List Model)

/-- The application `Context` (struct literal in `Application::new`, lines
24–40 of src/application.rs).  The fields the claims do not touch
(`entity_manager`, `state`, `mouse`, `state_count`) are omitted; `style`
and `cache` are opaque snapshots of the Style Table and Geometry Cache,
which the core hands to collaborators but whose internals are out of
scope.  The `Tree` type is not under src/ and is kept abstract as its
pre-order traversal sequence (§3/§4.2: `iter()` produces a restartable
pre-order sequence of all live entities), which is all the orchestrator
uses (`context.tree.clone().into_iter()`). -/
structure Context where
  tree : List Entity
  current : Entity
  count : Nat
  views : Entity → Option ViewId
  data : Data
  style : Nat
  cache : Nat
  enviroment : Enviroment
  event_queue : List Event
  hovered : Entity
  focused : Entity

/-- The `Context` built by `Application::new` (src/application.rs lines
24–42): root present in the tree and cache, empty registries and queue,
hovered and focused both initialised to the root entity. -/
def newContext : Context :=
  { tree := [Entity.root]
    current := Entity.root
    count := 0
    views := fun _ => none
    data := { model_data := fun _ => none }
    style := 0
    cache := 0
    enviroment := Enviroment.new
    event_queue := []
    hovered := Entity.root
    focused := Entity.root }

/-- The `WindowEvent::MouseInput` arm of `Application::run` (lines
235–262): push a MouseDown/MouseUp event targeting the hovered entity
with `Up` propagation. -/
def handleMouseInput (ctx : Context) (button : MouseButton) (state : MouseButtonState) :
    Context :=
  match state with
  | MouseButtonState.Pressed =>
      { ctx with event_queue := ctx.event_queue ++
          [((Event.new (WindowEvent.MouseDown button)).setTarget ctx.hovered).propagate
            Propagation.Up] }
  | MouseButtonState.Released =>
      { ctx with event_queue := ctx.event_queue ++
          [((Event.new (WindowEvent.MouseUp button)).setTarget ctx.hovered).propagate
            Propagation.Up] }

/-- The `WindowEvent::KeyboardInput` arm of `Application::run` (lines
264–325): push a KeyDown/KeyUp event with `DownUp` propagation, targeting
the focused entity when it is not null, else the hovered entity.  The
debug print for the H key has no effect on context state and is omitted;
key-code translation is a platform table, so `code`/`key` arrive already
translated. -/
def handleKeyboardInput (ctx : Context) (s : MouseButtonState) (code : Code)
    (key : Option Key) : Context :=
  match s with
  | MouseButtonState.Pressed =>
      if ctx.focused ≠ Entity.null then
        { ctx with event_queue := ctx.event_queue ++
            [((Event.new (WindowEvent.KeyDown code key)).setTarget ctx.focused).propagate
              Propagation.DownUp] }
      else
        { ctx with event_queue := ctx.event_queue ++
            [((Event.new (WindowEvent.KeyDown code key)).setTarget ctx.hovered).propagate
              Propagation.DownUp] }
  | MouseButtonState.Released =>
      if ctx.focused ≠ Entity.null then
        { ctx with event_queue := ctx.event_queue ++
            [((Event.new (WindowEvent.KeyUp code key)).setTarget ctx.focused).propagate
              Propagation.DownUp] }
      else
        { ctx with event_queue := ctx.event_queue ++
            [((Event.new (WindowEvent.KeyUp code key)).setTarget ctx.hovered).propagate
              Propagation.DownUp] }

/-- The `WindowEvent::ReceivedCharacter` arm of `Application::run` (lines
327–333): push a CharInput event targeting the focused entity with `Down`
propagation, unconditionally. -/
def handleReceivedCharacter (ctx : Context) (c : Char) : Context :=
  { ctx with event_queue := ctx.event_queue ++
      [((Event.new (WindowEvent.CharInput c)).setTarget ctx.focused).propagate
        Propagation.Down] }

/-- Trace items recording what the orchestrator tick did, in order:
builder re-invocation (with the insertion cursor at the moment of
invocation), one dequeued-and-dispatched event, one observer body re-run,
one model reset (owner entity and position in its model list), the layout
call, and the redraw request. -/
inductive Action where
  | rebuild (cursor : Entity)
  | flushEvent (e : Event)
  | runBody (observer : Entity)
  | resetModel (owner : Entity) (idx : Nat)
  | layout
  | redrawRequest
deriving DecidableEq

/-- True exactly on `Action.rebuild`. -/
def Action.isRebuild : Action → Bool
  | Action.rebuild _ => true
  | _ => false

/-- True exactly on `Action.flushEvent`. -/
def Action.isFlush : Action → Bool
  | Action.flushEvent _ => true
  | _ => false

/-- True exactly on the data-driven-update actions (`runBody`,
`resetModel`). -/
def Action.isUpdate : Action → Bool
  | Action.runBody _ => true
  | Action.resetModel _ _ => true
  | _ => false

/-- Phase 1 of the tick (src/application.rs lines 123–130): if
`enviroment.needs_rebuild`, reset `current` to root and `count` to 0,
re-invoke the builder closure if present, then clear the flag. -/
def rebuildPhase (builder : Option (Context → Context)) (ctx : Context) :
    Context × List Action :=
  if ctx.enviroment.needs_rebuild then
    let c := { ctx with current := Entity.root, count := 0 }
    match builder with
    | some b =>
        let c2 := b c
        ({ c2 with enviroment := { c2.enviroment with needs_rebuild := false } },
         [Action.rebuild c.current])
    | none =>
        ({ c with enviroment := { c.enviroment with needs_rebuild := false } }, [])
  else (ctx, [])

/-- Modelled from the spec: `EventManager::flush_events` is not under src/.
Per §4.4 it repeatedly pops the front of the Event Queue and dispatches the
event until the queue is empty at the start of an iteration.  Dispatch
(propagation-path resolution and handler invocation) is a parameter;
handlers may enqueue further events, so the drain is fuelled — the spec
documents that quiescence is not guaranteed by the Event Manager itself. -/
def flush_events (dispatch : Event → Context → Context) :
    Nat → Context → Context × List Action
  | 0, ctx => (ctx, [])
  | fuel + 1, ctx =>
      match ctx.event_queue with
      | [] => (ctx, [])
      | e :: rest =>
          let c1 := dispatch e { ctx with event_queue := rest }
          let r := flush_events dispatch fuel c1
          (r.1, Action.flushEvent e :: r.2)

/-- Phase 2 of the tick (src/application.rs lines 133–135): the
`while !context.event_queue.is_empty()` loop around
`event_manager.flush_events`, fuelled for the same reason as
`flush_events`. -/
def flushPhase (dispatch : Event → Context → Context) :
    Nat → Context → Context × List Action
  | 0, ctx => (ctx, [])
  | fuel + 1, ctx =>
      if ctx.event_queue.isEmpty then (ctx, [])
      else
        let r1 := flush_events dispatch (fuel + 1) ctx
        let r2 := flushPhase dispatch fuel r1.1
        (r2.1, r1.2 ++ r2.2)

/-- The observer-accumulation loop of the update phase (src/application.rs
lines 141–148): for each model in the entity's model list, if it is dirty,
extend the accumulator with its observer set. -/
def gatherObservers : List Model → List Entity → List Entity
  | [], observers => observers
  | m :: rest, observers =>
      gatherObservers rest (if m.is_dirty then observers ++ m.update else observers)

/-- Processing of one accumulated observer (src/application.rs lines
150–163): if the observer has a registered view, remove it from the
registry, save `current`/`count`, point `current` at the observer with
`count` 0, run the view's body, restore `current`/`count`, and re-insert
the view under the same key; otherwise do nothing. -/
def processObserver (body : ViewId → Context → Context) (ctx : Context)
    (observer : Entity) : Context × List Action :=
  match ctx.views observer with
  | none => (ctx, [])
  | some view =>
      let prev := ctx.current
      let prevCount := ctx.count
      let c1 := { ctx with
        views := fun e => if e = observer then none else ctx.views e
        current := observer
        count := 0 }
      let c2 := body view c1
      ({ c2 with
          current := prev
          count := prevCount
          views := fun e => if e = observer then some view else c2.views e },
       [Action.runBody observer])

/-- The observer loop (src/application.rs lines 150–163), over the
accumulated observer list in order. -/
def processObservers (body : ViewId → Context → Context) :
    List Entity → Context → Context × List Action
  | [], ctx => (ctx, [])
  | o :: rest, ctx =>
      let r1 := processObserver body ctx o
      let r2 := processObservers body rest r1.1
      (r2.1, r1.2 ++ r2.2)

/-- The per-entity body of the update phase (src/application.rs lines
139–170): accumulate the observer sets of the dirty models owned by the
entity, run the observer pass, then reset every model on the entity
(looked up again, since bodies may have mutated the store). -/
def updateEntity (body : ViewId → Context → Context) (ctx : Context)
    (entity : Entity) : Context × List Action :=
  let observers : List Entity :=
    match ctx.data.model_data entity with
    | some modelList => gatherObservers modelList []
    | none => []
  let r := processObservers body observers ctx
  match r.1.data.model_data entity with
  | some modelList =>
      ({ r.1 with data := { model_data := fun e =>
            if e = entity then some (modelList.map Model.reset)
            else r.1.data.model_data e } },
       r.2 ++ (List.range modelList.length).map (Action.resetModel entity))
  | none => r

/-- The update-phase loop over a snapshot of the tree's traversal
sequence. -/
def updateEntities (body : ViewId → Context → Context) :
    List Entity → Context → Context × List Action
  | [], ctx => (ctx, [])
  | e :: rest, ctx =>
      let r1 := updateEntity body ctx e
      let r2 := updateEntities body rest r1.1
      (r2.1, r1.2 ++ r2.2)

/-- Phase 3 of the tick (src/application.rs lines 138–171): iterate over
`context.tree.clone().into_iter()` — a snapshot of the traversal sequence
taken before the loop starts — updating each entity in order. -/
def updatePhase (body : ViewId → Context → Context) (ctx : Context) :
    Context × List Action :=
  updateEntities body ctx.tree ctx

/-- One orchestrator tick: the `MainEventsCleared` arm of
`Application::run` (src/application.rs lines 121–179).  Phases in source
order: rebuild-if-dirty, event flush, data-driven update, styling (a
no-op placeholder in the source), layout (`morphorm::layout`, an external
collaborator writing the Geometry Cache from cache, tree and style), and
the redraw request to the platform. -/
def tick (builder : Option (Context → Context)) (dispatch : Event → Context → Context)
    (body : ViewId → Context → Context) (layoutF : Nat → List Entity → Nat → Nat)
    (fuel : Nat) (ctx : Context) : Context × List Action :=
  let r1 := rebuildPhase builder ctx
  let r2 := flushPhase dispatch fuel r1.1
  let r3 := updatePhase body r2.1
  let c4 := { r3.1 with cache := layoutF r3.1.cache r3.1.tree r3.1.style }
  (c4, r1.2 ++ r2.2 ++ r3.2 ++ [Action.layout, Action.redrawRequest])

/-- A concrete context used by witnesses: one model on entity 1 (dirty,
observing entity 2), a view registered on entity 2, empty queue. -/
def sampleCtx : Context :=
  { tree := [Entity.root, Entity.ent 1, Entity.ent 2]
    current := Entity.root
    count := 0
    views := fun e => if e = Entity.ent 2 then some 5 else none
    data := { model_data := fun e =>
      if e = Entity.ent 1 then some [{ dirty := true, observers := [Entity.ent 2] }]
      else none }
    style := 0
    cache := 0
    enviroment := Enviroment.new
    event_queue := []
    hovered := Entity.root
    focused := Entity.root }

/-- The sample context with a pending rebuild request, used by witnesses. -/
def sampleCtxRebuild : Context :=
  { sampleCtx with enviroment := { locale := "", needs_rebuild := true } }

/-! ### Theorems -/

/-- Resetting a clean model leaves it unchanged: `reset` only clears the
dirty flag. -/
theorem Model.reset_of_clean (m : Model) (h : m.is_dirty = false) :
    Model.reset m = m := by
  cases m
  simp only [Model.is_dirty] at h
  simp [Model.reset, h]

/-- All models produced by `reset` are clean. -/
theorem reset_all_clean (l : List Model) :
    ∀ mm ∈ l.map Model.reset, mm.is_dirty = false := by
  intro mm hmm
  rcases List.mem_map.mp hmm with ⟨m, _, rfl⟩
  rfl

/-- Mapping `reset` over an all-clean model list is the identity. -/
theorem map_reset_clean (l : List Model) (h : ∀ m ∈ l, m.is_dirty = false) :
    l.map Model.reset = l := by
  induction l with
  | nil => rfl
  | cons m rest ih =>
      simp only [List.map_cons]
      rw [Model.reset_of_clean m (h m (List.mem_cons_self m rest)),
        ih fun m' hm' => h m' (List.mem_cons_of_mem m hm')]

/-- An all-clean model list has no dirty models. -/
theorem filter_dirty_nil (l : List Model) (h : ∀ m ∈ l, m.is_dirty = false) :
    l.filter Model.is_dirty = [] := by
  apply List.filter_eq_nil_iff.mpr
  intro m hm
  simp [h m hm]

/-- A model list with a single dirty model filters to just that model. -/
theorem filter_single_dirty (pre post : List Model) (m : Model)
    (hdirty : m.is_dirty = true)
    (hpre : ∀ m' ∈ pre, m'.is_dirty = false)
    (hpost : ∀ m' ∈ post, m'.is_dirty = false) :
    (pre ++ m :: post).filter Model.is_dirty = [m] := by
  rw [List.filter_append, filter_dirty_nil pre hpre]
  simp [List.filter_cons, hdirty, filter_dirty_nil post hpost]

/-- The observer-accumulation loop appends, in model order, the observer
sets of exactly the dirty models. -/
theorem gatherObservers_eq (ms : List Model) (acc : List Entity) :
    gatherObservers ms acc
      = acc ++ ((ms.filter Model.is_dirty).map Model.update).flatten := by
  induction ms generalizing acc with
  | nil => simp [gatherObservers]
  | cons m rest ih =>
      cases hd : m.is_dirty with
      | true => simp [gatherObservers, hd, ih, List.filter_cons]
      | false => simp [gatherObservers, hd, ih, List.filter_cons]

/-- Reset actions are never body runs. -/
theorem count_runBody_resets (n : Nat) (e o : Entity) :
    ((List.range n).map (Action.resetModel e)).count (Action.runBody o) = 0 := by
  apply List.count_eq_zero.mpr
  intro hmem
  rcases List.mem_map.mp hmem with ⟨i, _, h⟩
  exact absurd h (by simp)

/-- Counting a body run in a mapped observer list counts the observer. -/
theorem count_runBody_map (obs : List Entity) (o : Entity) :
    (obs.map Action.runBody).count (Action.runBody o) = obs.count o := by
  induction obs with
  | nil => rfl
  | cons x rest ih =>
      by_cases hx : x = o
      · subst hx
        simp [List.count_cons, ih]
      · simp [List.count_cons, ih, hx]

/-- One observer step with a registered view: the trace is a single body
run, the registry is pointwise restored (the view goes back in under the
same key), and the model store is untouched, provided the body itself
preserves registry and store. -/
theorem processObserver_run (body : ViewId → Context → Context)
    (hbv : ∀ v c, (body v c).views = c.views)
    (hbm : ∀ v c, (body v c).data = c.data)
    (c : Context) (o : Entity) (v : ViewId) (hv : c.views o = some v) :
    (processObserver body c o).2 = [Action.runBody o]
    ∧ (∀ x, (processObserver body c o).1.views x = c.views x)
    ∧ (processObserver body c o).1.data = c.data := by
  refine ⟨by simp [processObserver, hv], ?_, ?_⟩
  · intro x
    by_cases hxo : x = o
    · subst hxo
      simp [processObserver, hv, hbv]
    · simp [processObserver, hv, hbv, hxo]
  · simp [processObserver, hv, hbm]

/-- The observer pass over a list of observers that all have registered
views: one body run per observer in order, registry pointwise restored,
model store untouched. -/
theorem processObservers_run (body : ViewId → Context → Context)
    (hbv : ∀ v c, (body v c).views = c.views)
    (hbm : ∀ v c, (body v c).data = c.data) :
    ∀ (obs : List Entity) (c : Context), (∀ o ∈ obs, (c.views o).isSome = true) →
    (processObservers body obs c).2 = obs.map Action.runBody
    ∧ (∀ x, (processObservers body obs c).1.views x = c.views x)
    ∧ (processObservers body obs c).1.data = c.data := by
  intro obs
  induction obs with
  | nil => exact fun c _ => ⟨rfl, fun _ => rfl, rfl⟩
  | cons o rest ih =>
      intro c hobs
      rcases Option.isSome_iff_exists.mp (hobs o (List.mem_cons_self o rest)) with ⟨v, hv⟩
      obtain ⟨h1, h2, h3⟩ := processObserver_run body hbv hbm c o v hv
      have hrest : ∀ x ∈ rest, (((processObserver body c o).1).views x).isSome = true := by
        intro x hx
        rw [h2 x]
        exact hobs x (List.mem_cons_of_mem o hx)
      obtain ⟨ih1, ih2, ih3⟩ := ih (processObserver body c o).1 hrest
      refine ⟨?_, ?_, ?_⟩
      · simp [processObservers, h1, ih1]
      · intro x
        simp only [processObservers]
        rw [ih2 x, h2 x]
      · simp only [processObservers]
        rw [ih3, h3]

/-- The per-entity update step on an entity whose models are given, when
every accumulated observer has a view and bodies preserve registry and
store: the trace is the dirty models' observers (in order) as body runs,
followed by one reset per model; all models end reset; the registry is
pointwise unchanged; other entities' model lists are unchanged. -/
theorem updateEntity_run (body : ViewId → Context → Context)
    (hbv : ∀ v c, (body v c).views = c.views)
    (hbm : ∀ v c, (body v c).data = c.data)
    (c : Context) (e : Entity) (ms : List Model)
    (hmd : c.data.model_data e = some ms)
    (hobs : ∀ o ∈ ((ms.filter Model.is_dirty).map Model.update).flatten,
        (c.views o).isSome = true) :
    (updateEntity body c e).2
      = (((ms.filter Model.is_dirty).map Model.update).flatten).map Action.runBody
        ++ (List.range ms.length).map (Action.resetModel e)
    ∧ (∀ x, (updateEntity body c e).1.views x = c.views x)
    ∧ (updateEntity body c e).1.data.model_data e = some (ms.map Model.reset)
    ∧ (∀ x, x ≠ e → (updateEntity body c e).1.data.model_data x = c.data.model_data x) := by
  have hg : gatherObservers ms []
      = ((ms.filter Model.is_dirty).map Model.update).flatten := by
    simpa using gatherObservers_eq ms []
  obtain ⟨h1, h2, h3⟩ :=
    processObservers_run body hbv hbm
      (((ms.filter Model.is_dirty).map Model.update).flatten) c hobs
  have hmd2 : (processObservers body
      (((ms.filter Model.is_dirty).map Model.update).flatten) c).1.data.model_data e
      = some ms := by
    rw [h3, hmd]
  refine ⟨?_, ?_, ?_, ?_⟩
  · simp only [updateEntity, hmd, hg, hmd2]
    rw [h1]
  · intro x
    simp only [updateEntity, hmd, hg, hmd2]
    exact h2 x
  · simp only [updateEntity, hmd, hg, hmd2]
    simp
  · intro x hx
    simp only [updateEntity, hmd, hg, hmd2]
    rw [if_neg hx, h3]

/-- The per-entity update step on an entity all of whose models (if any)
are clean: no body runs, the registry is untouched, and the model store is
pointwise unchanged (resetting a clean model is the identity). -/
theorem updateEntity_clean (body : ViewId → Context → Context) (c : Context) (e : Entity)
    (h : ∀ l, c.data.model_data e = some l → ∀ m ∈ l, m.is_dirty = false) :
    (updateEntity body c e).1.views = c.views
    ∧ (∀ x, (updateEntity body c e).1.data.model_data x = c.data.model_data x)
    ∧ (∀ o, (updateEntity body c e).2.count (Action.runBody o) = 0) := by
  cases hmd : c.data.model_data e with
  | none =>
      refine ⟨?_, ?_, ?_⟩ <;> simp [updateEntity, hmd, processObservers]
  | some l =>
      have hcl := h l hmd
      have hg : gatherObservers l [] = [] := by
        rw [gatherObservers_eq, filter_dirty_nil l hcl]
        rfl
      refine ⟨?_, ?_, ?_⟩
      · simp [updateEntity, hmd, hg, processObservers]
      · intro x
        by_cases hx : x = e
        · subst hx
          simp [updateEntity, hmd, hg, processObservers, map_reset_clean l hcl]
        · simp [updateEntity, hmd, hg, processObservers, hx]
      · intro o
        simp [updateEntity, hmd, hg, processObservers, count_runBody_resets]

/-- Every action logged by the rebuild phase is a rebuild. -/
theorem rebuildPhase_log (builder : Option (Context → Context)) (ctx : Context) :
    ∀ a ∈ (rebuildPhase builder ctx).2, a.isRebuild = true := by
  intro a ha
  cases builder with
  | none =>
      cases hr : ctx.enviroment.needs_rebuild <;> simp [rebuildPhase, hr] at ha
  | some b =>
      cases hr : ctx.enviroment.needs_rebuild with
      | false => simp [rebuildPhase, hr] at ha
      | true =>
          simp [rebuildPhase, hr] at ha
          subst ha
          rfl

/-- Every action logged by the event-manager drain is an event flush. -/
theorem flush_events_log (dispatch : Event → Context → Context) :
    ∀ fuel ctx, ∀ a ∈ (flush_events dispatch fuel ctx).2, a.isFlush = true := by
  intro fuel
  induction fuel with
  | zero => intro ctx a ha; simp [flush_events] at ha
  | succ n ih =>
      intro ctx a ha
      rw [flush_events] at ha
      cases hq : ctx.event_queue with
      | nil => rw [hq] at ha; simp at ha
      | cons e rest =>
          rw [hq] at ha
          simp at ha
          rcases ha with ha | ha
          · subst ha; rfl
          · exact ih _ a ha

/-- Every action logged by the flush phase is an event flush. -/
theorem flushPhase_log (dispatch : Event → Context → Context) :
    ∀ fuel ctx, ∀ a ∈ (flushPhase dispatch fuel ctx).2, a.isFlush = true := by
  intro fuel
  induction fuel with
  | zero => intro ctx a ha; simp [flushPhase] at ha
  | succ n ih =>
      intro ctx a ha
      by_cases hq : ctx.event_queue.isEmpty
      · simp [flushPhase, hq] at ha
      · simp only [flushPhase, hq, if_false, Bool.false_eq_true] at ha
        rcases List.mem_append.mp ha with ha | ha
        · exact flush_events_log dispatch _ _ a ha
        · exact ih _ a ha

/-- Every action logged by a single observer step is an update action. -/
theorem processObserver_log (body : ViewId → Context → Context) (c : Context)
    (o : Entity) : ∀ a ∈ (processObserver body c o).2, a.isUpdate = true := by
  intro a ha
  cases hv : c.views o with
  | none => simp [processObserver, hv] at ha
  | some v =>
      simp [processObserver, hv] at ha
      subst ha
      rfl

/-- Every action logged by the observer pass is an update action. -/
theorem processObservers_log (body : ViewId → Context → Context) :
    ∀ (obs : List Entity) (c : Context),
    ∀ a ∈ (processObservers body obs c).2, a.isUpdate = true := by
  intro obs
  induction obs with
  | nil => intro c a ha; simp [processObservers] at ha
  | cons o rest ih =>
      intro c a ha
      simp only [processObservers] at ha
      rcases List.mem_append.mp ha with ha | ha
      · exact processObserver_log body c o a ha
      · exact ih _ a ha

/-- Every action logged by the per-entity update step is an update
action. -/
theorem updateEntity_log (body : ViewId → Context → Context) (c : Context) (e : Entity) :
    ∀ a ∈ (updateEntity body c e).2, a.isUpdate = true := by
  intro a ha
  simp only [updateEntity] at ha
  split at ha
  · rcases List.mem_append.mp ha with h | h
    · exact processObservers_log body _ c a h
    · rcases List.mem_map.mp h with ⟨i, _, rfl⟩
      rfl
  · exact processObservers_log body _ c a ha

/-- Every action logged by the update phase is an update action. -/
theorem updateEntities_log (body : ViewId → Context → Context) :
    ∀ (ts : List Entity) (c : Context),
    ∀ a ∈ (updateEntities body ts c).2, a.isUpdate = true := by
  intro ts
  induction ts with
  | nil => intro c a ha; simp [updateEntities] at ha
  | cons e rest ih =>
      intro c a ha
      simp only [updateEntities] at ha
      rcases List.mem_append.mp ha with ha | ha
      · exact updateEntity_log body c e a ha
      · exact ih _ a ha

/-- The flush phase on an empty queue returns the context unchanged with
an empty trace (the while-loop guard fails immediately). -/
theorem flushPhase_of_empty (dispatch : Event → Context → Context) (fuel : Nat)
    (ctx : Context) (h : ctx.event_queue = []) :
    flushPhase dispatch fuel ctx = (ctx, []) := by
  cases fuel with
  | zero => rfl
  | succ n => simp [flushPhase, h]

/-- C1: one orchestrator tick's trace decomposes as rebuild actions, then
event flushes, then update actions, then the layout call, then the redraw
request — the phases run in this strict order, each completing before the
next begins; and when `needs_rebuild` is set at tick start (and a builder
is present, as in `Application::run`), the rebuild portion is exactly one
builder re-invocation, placed before every queued-event flush. -/
theorem tick_phase_order (builder : Option (Context → Context))
    (dispatch : Event → Context → Context) (body : ViewId → Context → Context)
    (layoutF : Nat → List Entity → Nat → Nat) (fuel : Nat) (ctx : Context) :
    ∃ lr lf lu,
      (tick builder dispatch body layoutF fuel ctx).2
        = lr ++ lf ++ lu ++ [Action.layout, Action.redrawRequest]
      ∧ (∀ a ∈ lr, a.isRebuild = true)
      ∧ (∀ a ∈ lf, a.isFlush = true)
      ∧ (∀ a ∈ lu, a.isUpdate = true)
      ∧ (ctx.enviroment.needs_rebuild = true → builder.isSome = true →
          lr = [Action.rebuild Entity.root])
      ∧ (ctx.enviroment.needs_rebuild = false → lr = []) := by
  refine ⟨(rebuildPhase builder ctx).2,
    (flushPhase dispatch fuel (rebuildPhase builder ctx).1).2,
    (updatePhase body (flushPhase dispatch fuel (rebuildPhase builder ctx).1).1).2,
    ?_, rebuildPhase_log builder ctx, flushPhase_log dispatch _ _,
    updateEntities_log body _ _, ?_, ?_⟩
  · simp [tick, updatePhase, List.append_assoc]
  · intro hr hb
    rcases Option.isSome_iff_exists.mp hb with ⟨b, rfl⟩
    simp [rebuildPhase, hr]
  · intro hr
    cases builder <;> simp [rebuildPhase, hr]

/-- C1 witness: the phase decomposition at a concrete tick. -/
theorem tick_phase_order_witness :
    ∃ lr lf lu,
      (tick (some fun c => c) (fun _ c => c) (fun _ c => c) (fun ca _ _ => ca) 2
          sampleCtx).2
        = lr ++ lf ++ lu ++ [Action.layout, Action.redrawRequest]
      ∧ (∀ a ∈ lr, a.isRebuild = true)
      ∧ (∀ a ∈ lf, a.isFlush = true)
      ∧ (∀ a ∈ lu, a.isUpdate = true)
      ∧ (sampleCtx.enviroment.needs_rebuild = true →
          (some fun c : Context => c).isSome = true →
          lr = [Action.rebuild Entity.root])
      ∧ (sampleCtx.enviroment.needs_rebuild = false → lr = []) :=
  tick_phase_order (some fun c => c) (fun _ c => c) (fun _ c => c) (fun ca _ _ => ca) 2
    sampleCtx

/-- C8: per tick, the trace contains exactly one rebuild — performed with
the insertion cursor reset to root — when the flag was set at tick start
(and a builder is present), and none when it was clear; the rebuild phase
always leaves the flag cleared, so any number of requests within a tick
coalesce into a single rebuild at the next tick. -/
theorem rebuild_request_coalesced (builder : Option (Context → Context))
    (dispatch : Event → Context → Context) (body : ViewId → Context → Context)
    (layoutF : Nat → List Entity → Nat → Nat) (fuel : Nat) (ctx : Context) :
    ((tick builder dispatch body layoutF fuel ctx).2.filter Action.isRebuild
      = if ctx.enviroment.needs_rebuild = true ∧ builder.isSome = true
        then [Action.rebuild Entity.root] else [])
    ∧ (rebuildPhase builder ctx).1.enviroment.needs_rebuild = false := by
  constructor
  · have hflush : (flushPhase dispatch fuel (rebuildPhase builder ctx).1).2.filter
        Action.isRebuild = [] := by
      apply List.filter_eq_nil_iff.mpr
      intro a ha
      have hfa := flushPhase_log dispatch fuel (rebuildPhase builder ctx).1 a ha
      cases a <;> simp_all [Action.isFlush, Action.isRebuild]
    have hupd : (updatePhase body
        (flushPhase dispatch fuel (rebuildPhase builder ctx).1).1).2.filter
        Action.isRebuild = [] := by
      apply List.filter_eq_nil_iff.mpr
      intro a ha
      have hua := updateEntities_log body _ _ a ha
      cases a <;> simp_all [Action.isUpdate, Action.isRebuild]
    have hreb : (rebuildPhase builder ctx).2.filter Action.isRebuild
        = if ctx.enviroment.needs_rebuild = true ∧ builder.isSome = true
          then [Action.rebuild Entity.root] else [] := by
      cases hr : ctx.enviroment.needs_rebuild <;> cases builder <;>
        simp [rebuildPhase, hr, Action.isRebuild]
    simp [tick, List.filter_append, hreb, hupd, hflush, Action.isRebuild]
  · cases hr : ctx.enviroment.needs_rebuild <;> cases builder <;>
      simp [rebuildPhase, hr]

/-- C8 witness: a concrete tick with the flag set sees exactly one
rebuild at the root cursor, and the rebuild phase clears the flag. -/
theorem rebuild_request_coalesced_witness :
    ((tick (some fun c => c) (fun _ c => c) (fun _ c => c) (fun ca _ _ => ca) 2
        sampleCtxRebuild).2.filter Action.isRebuild
      = if sampleCtxRebuild.enviroment.needs_rebuild = true
            ∧ (some fun c : Context => c).isSome = true
        then [Action.rebuild Entity.root] else [])
    ∧ (rebuildPhase (some fun c => c) sampleCtxRebuild).1.enviroment.needs_rebuild
        = false :=
  rebuild_request_coalesced (some fun c => c) (fun _ c => c) (fun _ c => c)
    (fun ca _ _ => ca) 2 sampleCtxRebuild

/-- C2: in the per-entity update step, the observer sets of exactly the
dirty models owned by the entity are accumulated first (in model order);
each accumulated observer's view is checked out, has its body re-run and
is checked back in (the trace lists all body runs before any reset, so
reset never interleaves with the observer pass); only after the observer
pass are all of the entity's models reset; and resetting a clean model
leaves its state unchanged.  Bodies are assumed to preserve the registry
and the model store, and each accumulated observer has a registered
view. -/
theorem update_entity_observer_pass (body : ViewId → Context → Context) (c : Context)
    (e : Entity) (ms : List Model)
    (hmd : c.data.model_data e = some ms)
    (hbv : ∀ v cc, (body v cc).views = cc.views)
    (hbm : ∀ v cc, (body v cc).data = cc.data)
    (hobs : ∀ o ∈ ((ms.filter Model.is_dirty).map Model.update).flatten,
        (c.views o).isSome = true) :
    (updateEntity body c e).2
      = (((ms.filter Model.is_dirty).map Model.update).flatten).map Action.runBody
        ++ (List.range ms.length).map (Action.resetModel e)
    ∧ (updateEntity body c e).1.data.model_data e = some (ms.map Model.reset)
    ∧ (∀ x, (updateEntity body c e).1.views x = c.views x)
    ∧ (∀ mm : Model, mm.is_dirty = false → Model.reset mm = mm) := by
  obtain ⟨h1, h2, h3, _⟩ := updateEntity_run body hbv hbm c e ms hmd hobs
  exact ⟨h1, h3, h2, fun mm h => Model.reset_of_clean mm h⟩

/-- C2 witness: the update step at the concrete context, on entity 1,
which owns one dirty model observing entity 2. -/
theorem update_entity_observer_pass_witness :
    (updateEntity (fun _ c => c) sampleCtx (Entity.ent 1)).2
      = ((([({ dirty := true, observers := [Entity.ent 2] } : Model)].filter
            Model.is_dirty).map Model.update).flatten).map Action.runBody
        ++ (List.range
            [({ dirty := true, observers := [Entity.ent 2] } : Model)].length).map
            (Action.resetModel (Entity.ent 1))
    ∧ (updateEntity (fun _ c => c) sampleCtx (Entity.ent 1)).1.data.model_data
        (Entity.ent 1)
        = some ([({ dirty := true, observers := [Entity.ent 2] } : Model)].map
            Model.reset)
    ∧ (∀ x, (updateEntity (fun _ c => c) sampleCtx (Entity.ent 1)).1.views x
        = sampleCtx.views x)
    ∧ (∀ mm : Model, mm.is_dirty = false → Model.reset mm = mm) :=
  update_entity_observer_pass (fun _ c => c) sampleCtx (Entity.ent 1)
    [{ dirty := true, observers := [Entity.ent 2] }] (by decide)
    (fun _ _ => rfl) (fun _ _ => rfl) (by decide)

/-- Invariant of the update-phase loop when exactly one model (on entity
`e`, in position `pre`/`post`) is dirty, every other model in the store
`M` is clean, every observer of the dirty model has a view in the registry
`V`, and bodies preserve registry and store: after folding over any entity
list, the registry is pointwise unchanged, `e`'s model list is reset
exactly when `e` was visited (or was already processed, `done`), other
entities' model lists are unchanged, and each observer's body-run count is
the observer's multiplicity in the dirty model's observer list if the
dirty model was processed on this fold, and zero otherwise. -/
theorem updateEntities_single_dirty (body : ViewId → Context → Context)
    (hbv : ∀ v c, (body v c).views = c.views)
    (hbm : ∀ v c, (body v c).data = c.data)
    (V : Entity → Option ViewId) (M : Entity → Option (List Model))
    (e : Entity) (pre post : List Model) (m : Model)
    (hdirty : m.is_dirty = true)
    (hpre : ∀ m' ∈ pre, m'.is_dirty = false)
    (hpost : ∀ m' ∈ post, m'.is_dirty = false)
    (hother : ∀ x, x ≠ e → ∀ l, M x = some l → ∀ m' ∈ l, m'.is_dirty = false)
    (hview : ∀ o ∈ m.update, (V o).isSome = true) :
    ∀ (ts : List Entity) (c : Context) (done : Bool),
    (∀ x, c.views x = V x) →
    (c.data.model_data e = some (if done then (pre ++ m :: post).map Model.reset
        else pre ++ m :: post)) →
    (∀ x, x ≠ e → c.data.model_data x = M x) →
    (∀ x, (updateEntities body ts c).1.views x = V x)
    ∧ ((updateEntities body ts c).1.data.model_data e
        = some (if done = true ∨ e ∈ ts then (pre ++ m :: post).map Model.reset
            else pre ++ m :: post))
    ∧ (∀ x, x ≠ e → (updateEntities body ts c).1.data.model_data x = M x)
    ∧ (∀ o ∈ m.update, (updateEntities body ts c).2.count (Action.runBody o)
        = if done = true ∨ e ∉ ts then 0 else m.update.count o) := by
  intro ts
  induction ts with
  | nil =>
      intro c done hcv hce hco
      refine ⟨hcv, ?_, hco, ?_⟩
      · cases done <;> simpa [updateEntities] using hce
      · intro o _
        simp [updateEntities]
  | cons t rest ih =>
      intro c done hcv hce hco
      by_cases hte : t = e
      · subst hte
        cases done with
        | false =>
            have hms : c.data.model_data t = some (pre ++ m :: post) := by
              simpa using hce
            have hfl : (((pre ++ m :: post).filter Model.is_dirty).map
                Model.update).flatten = m.update := by
              rw [filter_single_dirty pre post m hdirty hpre hpost]
              simp
            have hobs : ∀ o ∈ (((pre ++ m :: post).filter Model.is_dirty).map
                Model.update).flatten, (c.views o).isSome = true := by
              rw [hfl]
              intro o ho
              rw [hcv o]
              exact hview o ho
            obtain ⟨h1, h2, h3, h4⟩ :=
              updateEntity_run body hbv hbm c t (pre ++ m :: post) hms hobs
            have hcv1 : ∀ x, (updateEntity body c t).1.views x = V x :=
              fun x => (h2 x).trans (hcv x)
            have hco1 : ∀ x, x ≠ t →
                (updateEntity body c t).1.data.model_data x = M x :=
              fun x hx => (h4 x hx).trans (hco x hx)
            obtain ⟨i1, i2, i3, i4⟩ :=
              ih (updateEntity body c t).1 true hcv1 (by simpa using h3) hco1
            refine ⟨?_, ?_, ?_, ?_⟩
            · intro x
              simp only [updateEntities]
              exact i1 x
            · simp only [updateEntities]
              rw [i2]
              simp
            · intro x hx
              simp only [updateEntities]
              exact i3 x hx
            · intro o ho
              simp only [updateEntities, List.count_append]
              rw [h1, List.count_append, hfl, count_runBody_map,
                count_runBody_resets, i4 o ho]
              simp
        | true =>
            have hclean : ∀ l, c.data.model_data t = some l →
                ∀ m' ∈ l, m'.is_dirty = false := by
              intro l hl
              rw [hl] at hce
              have hlr : l = (pre ++ m :: post).map Model.reset := by
                simpa using hce
              rw [hlr]
              exact reset_all_clean (pre ++ m :: post)
            obtain ⟨u1, u2, u3⟩ := updateEntity_clean body c t hclean
            have hcv1 : ∀ x, (updateEntity body c t).1.views x = V x := by
              intro x
              rw [u1]
              exact hcv x
            have hce1 : (updateEntity body c t).1.data.model_data t
                = some ((pre ++ m :: post).map Model.reset) := by
              rw [u2 t]
              simpa using hce
            have hco1 : ∀ x, x ≠ t →
                (updateEntity body c t).1.data.model_data x = M x := by
              intro x hx
              rw [u2 x]
              exact hco x hx
            obtain ⟨i1, i2, i3, i4⟩ :=
              ih (updateEntity body c t).1 true hcv1 (by simpa using hce1) hco1
            refine ⟨?_, ?_, ?_, ?_⟩
            · intro x
              simp only [updateEntities]
              exact i1 x
            · simp only [updateEntities]
              rw [i2]
              simp
            · intro x hx
              simp only [updateEntities]
              exact i3 x hx
            · intro o ho
              simp only [updateEntities, List.count_append]
              rw [u3 o, i4 o ho]
              simp
      · have hclean : ∀ l, c.data.model_data t = some l →
            ∀ m' ∈ l, m'.is_dirty = false := by
          intro l hl
          exact hother t hte l ((hco t hte).symm.trans hl)
        obtain ⟨u1, u2, u3⟩ := updateEntity_clean body c t hclean
        have hcv1 : ∀ x, (updateEntity body c t).1.views x = V x := by
          intro x
          rw [u1]
          exact hcv x
        have hce1 : (updateEntity body c t).1.data.model_data e
            = some (if done then (pre ++ m :: post).map Model.reset
                else pre ++ m :: post) := by
          rw [u2 e]
          exact hce
        have hco1 : ∀ x, x ≠ e →
            (updateEntity body c t).1.data.model_data x = M x := by
          intro x hx
          rw [u2 x]
          exact hco x hx
        obtain ⟨i1, i2, i3, i4⟩ :=
          ih (updateEntity body c t).1 done hcv1 hce1 hco1
        refine ⟨?_, ?_, ?_, ?_⟩
        · intro x
          simp only [updateEntities]
          exact i1 x
        · simp only [updateEntities]
          rw [i2]
          simp [List.mem_cons, Ne.symm hte]
        · intro x hx
          simp only [updateEntities]
          exact i3 x hx
        · intro o ho
          simp only [updateEntities, List.count_append]
          rw [u3 o, i4 o ho]
          simp [List.mem_cons, Ne.symm hte]

/-- C3: marking one model dirty (with all other models clean, the queue
empty, no rebuild pending, the dirty model's observers distinct and each
holding a view, bodies preserving registry and store) and running one
orchestrator tick leaves that model — and its whole list — non-dirty, and
re-runs the body of every entity in the model's observer set exactly
once. -/
theorem dirty_model_round_trip (builder : Option (Context → Context))
    (dispatch : Event → Context → Context) (body : ViewId → Context → Context)
    (layoutF : Nat → List Entity → Nat → Nat) (fuel : Nat) (ctx : Context)
    (e : Entity) (pre post : List Model) (m : Model)
    (hq : ctx.event_queue = [])
    (hr : ctx.enviroment.needs_rebuild = false)
    (hmd : ctx.data.model_data e = some (pre ++ m :: post))
    (hdirty : m.is_dirty = true)
    (hpre : ∀ m' ∈ pre, m'.is_dirty = false)
    (hpost : ∀ m' ∈ post, m'.is_dirty = false)
    (hother : ∀ x, x ≠ e → ∀ l, ctx.data.model_data x = some l →
        ∀ m' ∈ l, m'.is_dirty = false)
    (hnodup : m.update.Nodup)
    (hview : ∀ o ∈ m.update, (ctx.views o).isSome = true)
    (hbv : ∀ v c, (body v c).views = c.views)
    (hbm : ∀ v c, (body v c).data = c.data)
    (htree : e ∈ ctx.tree) :
    ((tick builder dispatch body layoutF fuel ctx).1.data.model_data e
        = some ((pre ++ m :: post).map Model.reset))
    ∧ (∀ mm ∈ (pre ++ m :: post).map Model.reset, mm.is_dirty = false)
    ∧ (∀ o ∈ m.update,
        (tick builder dispatch body layoutF fuel ctx).2.count (Action.runBody o) = 1) := by
  have hreb : rebuildPhase builder ctx = (ctx, []) := by
    simp [rebuildPhase, hr]
  have hfl : flushPhase dispatch fuel ctx = (ctx, []) :=
    flushPhase_of_empty dispatch fuel ctx hq
  obtain ⟨i1, i2, i3, i4⟩ :=
    updateEntities_single_dirty body hbv hbm ctx.views ctx.data.model_data e pre post m
      hdirty hpre hpost hother hview ctx.tree ctx false (fun _ => rfl)
      (by simpa using hmd) (fun _ _ => rfl)
  refine ⟨?_, reset_all_clean (pre ++ m :: post), ?_⟩
  · simp only [tick, hreb, hfl, updatePhase]
    rw [i2]
    simp [htree]
  · intro o ho
    simp only [tick, hreb, hfl, updatePhase, List.count_append]
    rw [i4 o ho]
    have hone : m.update.count o = 1 := List.count_eq_one_of_mem hnodup ho
    simp [htree, hone]

/-- C3 witness: the round trip at the concrete context — entity 1's model
is dirty with observer entity 2, whose view body runs exactly once. -/
theorem dirty_model_round_trip_witness :
    ((tick none (fun _ c => c) (fun _ c => c) (fun ca _ _ => ca) 2
        sampleCtx).1.data.model_data (Entity.ent 1)
      = some (([] ++ ({ dirty := true, observers := [Entity.ent 2] } : Model)
          :: []).map Model.reset))
    ∧ (∀ mm ∈ (([] ++ ({ dirty := true, observers := [Entity.ent 2] } : Model)
        :: []).map Model.reset), mm.is_dirty = false)
    ∧ (∀ o ∈ ({ dirty := true, observers := [Entity.ent 2] } : Model).update,
        (tick none (fun _ c => c) (fun _ c => c) (fun ca _ _ => ca) 2
          sampleCtx).2.count (Action.runBody o) = 1) :=
  dirty_model_round_trip none (fun _ c => c) (fun _ c => c) (fun ca _ _ => ca) 2
    sampleCtx (Entity.ent 1) [] [] { dirty := true, observers := [Entity.ent 2] }
    rfl rfl (by decide) rfl (by simp) (by simp)
    (by
      intro x hx l hl
      simp only [sampleCtx] at hl
      rw [if_neg hx] at hl
      cases hl)
    (by decide) (by decide) (fun _ _ => rfl) (fun _ _ => rfl) (by decide)

/-- C5 counterexample: at context creation the focused entity is not the
null entity, contrary to the claim — `Application::new` initialises
`focused` to `Entity::root()`. -/
theorem newContext_focused_not_null : newContext.focused ≠ Entity.null := by
  decide

/-- C5 (amended): when the application context is created, before any
focus-setting operation runs, the focused entity is the root entity. -/
theorem newContext_focused_root : newContext.focused = Entity.root := rfl

/-- C4: for every platform key-down or key-up signal, the core enqueues a
KeyDown/KeyUp event with DownUp propagation whose target is the focused
entity when it is not null, and the hovered entity otherwise. -/
theorem keyboard_input_enqueues (ctx : Context) (s : MouseButtonState) (code : Code)
    (key : Option Key) :
    handleKeyboardInput ctx s code key = { ctx with event_queue := ctx.event_queue ++
      [{ payload := match s with
           | MouseButtonState.Pressed => WindowEvent.KeyDown code key
           | MouseButtonState.Released => WindowEvent.KeyUp code key
         target := if ctx.focused = Entity.null then ctx.hovered else ctx.focused
         propagation := Propagation.DownUp }] } := by
  cases s <;> by_cases h : ctx.focused = Entity.null <;>
    simp [handleKeyboardInput, h, Event.new, Event.setTarget, Event.propagate]

/-- C6: for every platform mouse-button press or release signal, the core
enqueues a MouseDown/MouseUp event targeting the currently hovered entity
with Up propagation. -/
theorem mouse_input_enqueues (ctx : Context) (button : MouseButton)
    (s : MouseButtonState) :
    handleMouseInput ctx button s = { ctx with event_queue := ctx.event_queue ++
      [{ payload := match s with
           | MouseButtonState.Pressed => WindowEvent.MouseDown button
           | MouseButtonState.Released => WindowEvent.MouseUp button
         target := ctx.hovered
         propagation := Propagation.Up }] } := by
  cases s <;> simp [handleMouseInput, Event.new, Event.setTarget, Event.propagate]

/-- C7: for every platform character-input signal, the core enqueues a
CharInput event targeting the focused entity — unconditionally, with no
fallback to hovered — with Down propagation. -/
theorem char_input_enqueues (ctx : Context) (c : Char) :
    handleReceivedCharacter ctx c = { ctx with event_queue := ctx.event_queue ++
      [{ payload := WindowEvent.CharInput c
         target := ctx.focused
         propagation := Propagation.Down }] } := rfl

/-- C9: when the Event Queue is empty at the start of the event-flush
phase, the phase is a no-op: `flush_events` is never applied (the trace is
empty) and the entire context — tree, views, style, cache, models, queue —
is returned unchanged. -/
theorem flush_phase_empty_noop (dispatch : Event → Context → Context) (fuel : Nat)
    (ctx : Context) (h : ctx.event_queue = []) :
    flushPhase dispatch fuel ctx = (ctx, []) := by
  cases fuel with
  | zero => rfl
  | succ n => simp [flushPhase, h]

/-- C9 witness: the flush phase at a concrete context with an empty queue. -/
theorem flush_phase_empty_noop_witness :
    flushPhase (fun _ c => c) 3 newContext = (newContext, []) :=
  flush_phase_empty_noop (fun _ c => c) 3 newContext rfl

/-- C10: an observer with no registered view is silently skipped (context
and trace unchanged); an observer with a view has the view re-inserted
under the same entity key after its body runs (exactly one body run in the
trace), and `current` and `count` are restored to the values they held
before the observer was processed. -/
theorem observer_checkout_restores (body : ViewId → Context → Context) (ctx : Context)
    (o : Entity) :
    (ctx.views o = none → processObserver body ctx o = (ctx, []))
    ∧ ∀ v, ctx.views o = some v →
        (processObserver body ctx o).1.views o = some v
        ∧ (processObserver body ctx o).1.current = ctx.current
        ∧ (processObserver body ctx o).1.count = ctx.count
        ∧ (processObserver body ctx o).2 = [Action.runBody o] := by
  constructor
  · intro h
    simp [processObserver, h]
  · intro v h
    simp [processObserver, h]

/-- C10 witness: processing entity 2 (which has view 5 registered) in the
concrete context restores `current`/`count`, re-inserts view 5, and runs
the body exactly once. -/
theorem observer_checkout_restores_witness :
    (processObserver (fun _ c => c) sampleCtx (Entity.ent 2)).1.views (Entity.ent 2)
        = some 5
    ∧ (processObserver (fun _ c => c) sampleCtx (Entity.ent 2)).1.current
        = sampleCtx.current
    ∧ (processObserver (fun _ c => c) sampleCtx (Entity.ent 2)).1.count = sampleCtx.count
    ∧ (processObserver (fun _ c => c) sampleCtx (Entity.ent 2)).2
        = [Action.runBody (Entity.ent 2)] :=
  (observer_checkout_restores (fun _ c => c) sampleCtx (Entity.ent 2)).2 5 (by decide)

end Vizia
